import Mathlib

/-!
Formal model of the datapoints paging core of `cognite-sdk-python`
(`cognite/client/stable/datapoints.py`): window splitting for parallel
fetching, the single-series paging loop, the multi-series lockstep pager,
and their ordering / termination / error-propagation properties.

Timestamps are epoch milliseconds, modelled as `Nat`.  Python's
`int(a / b)` on nonnegative integers is floor division, modelled as
`Nat` division.
-/

namespace CogniteDatapoints

/-- A half-open time window `[start, end)` in epoch milliseconds
(the `{"start": ..., "end": ...}` dicts built in `get_datapoints`). -/
structure TimeWindow where
  start : Nat
  «end» : Nat
deriving DecidableEq, Repr

/-- A datapoint `{"timestamp": ..., "value": ...}` as decoded by
`_get_datapoints_helper`. -/
structure Datapoint where
  timestamp : Nat
  value : Int
deriving DecidableEq, Repr

/-- Modelled from the spec: the repository's `_utils.round_to_nearest` is not
under `src/`; spec section 4.1 defines it (`roundDownToMultiple(value, base)`)
as the largest multiple of `base` that is `≤ value`. -/
def round_to_nearest (x : Nat) (base : Nat) : Nat :=
  base * (x / base)

/-- `steps = min(num_of_workers, max(1, int(diff / granularity_ms)))`
(datapoints.py line 197). -/
def steps (diff num_of_workers granularity_ms : Nat) : Nat :=
  min num_of_workers (max 1 (diff / granularity_ms))

/-- `step_size = _utils.round_to_nearest(int(diff / steps), base=granularity_ms)`
(datapoints.py line 199). -/
def step_size (diff s granularity_ms : Nat) : Nat :=
  round_to_nearest (diff / s) granularity_ms

/-- The sub-window list built by `get_datapoints` lines 196-202:
`step_starts = [start + i * step_size for i in range(steps)]` and
`args = [{"start": s, "end": s + step_size} for s in step_starts]`. -/
def split (w : TimeWindow) (num_of_workers granularity_ms : Nat) : List TimeWindow :=
  let diff := w.«end» - w.start
  let s := steps diff num_of_workers granularity_ms
  let sz := step_size diff s granularity_ms
  (List.range s).map (fun i => ⟨w.start + i * sz, w.start + i * sz + sz⟩)

/-- Membership of a timestamp in a half-open window. -/
def memWindow (t : Nat) (w : TimeWindow) : Prop :=
  w.start ≤ t ∧ t < w.«end»

instance (t : Nat) (w : TimeWindow) : Decidable (memWindow t w) := by
  unfold memWindow; infer_instance

/-- `num_of_workers`, forced to 1 when `include_outside_points is True`
(datapoints.py lines 188-190). -/
def effective_num_of_workers (workers : Nat) (include_outside_points : Bool) : Nat :=
  if include_outside_points then 1 else workers

/-- The i-th sub-window produced by `split` is
`[start + i*step_size, start + (i+1)*step_size)`. -/
theorem split_getElem (w : TimeWindow) (k g i : Nat) (hi : i < (split w k g).length) :
    (split w k g)[i] =
      ⟨w.start + i * step_size (w.«end» - w.start) (steps (w.«end» - w.start) k g) g,
       w.start + (i + 1) * step_size (w.«end» - w.start) (steps (w.«end» - w.start) k g) g⟩ := by
  simp only [split, List.getElem_map, List.getElem_range]
  congr 1
  ring

/-- Length of the sub-window list is the number of steps. -/
theorem split_length (w : TimeWindow) (k g : Nat) :
    (split w k g).length = steps (w.«end» - w.start) k g := by
  simp [split]

/-- Two distinct windows of the arithmetic family `[s + i*sz, s + (i+1)*sz)`
cannot share a timestamp (case `i < j`). -/
theorem split_disjoint_aux (s sz i j t : Nat) (hij : i < j)
    (h1 : t < s + (i + 1) * sz) (h2 : s + j * sz ≤ t) : False := by
  have h3 : (i + 1) * sz ≤ j * sz := Nat.mul_le_mul_right sz hij
  exact absurd (Nat.lt_of_lt_of_le (Nat.lt_of_lt_of_le h1 (Nat.add_le_add_left h3 s)) h2)
    (Nat.lt_irrefl t)

/-- C1: for every window with `start < end`, worker count ≥ 1 and granularity ≥ 1,
`get_datapoints` computes `steps = min(workerCount, max(1, (end-start)/granularityMs))`,
a step size that is a multiple of the granularity, and produces the `steps`
contiguous sub-windows `[start + i*stepSize, start + (i+1)*stepSize)`, which are
pairwise disjoint, gap-free, and have every boundary at a granularity-multiple
offset from `start`; in particular `split {start: 0, end: 1000000}` with 4 workers
and granularity 10000 ms is exactly 4 windows of length 250000 with all boundaries
multiples of 10000. -/
theorem split_spec (w : TimeWindow) (k g : Nat)
    (hse : w.start < w.«end») (hk : 1 ≤ k) (hg : 1 ≤ g) :
    split ⟨0, 1000000⟩ 4 10000 =
        [⟨0, 250000⟩, ⟨250000, 500000⟩, ⟨500000, 750000⟩, ⟨750000, 1000000⟩] ∧
    steps (w.«end» - w.start) k g = min k (max 1 ((w.«end» - w.start) / g)) ∧
    g ∣ step_size (w.«end» - w.start) (steps (w.«end» - w.start) k g) g ∧
    (split w k g).length = steps (w.«end» - w.start) k g ∧
    (∀ i, (hi : i < (split w k g).length) →
        (split w k g)[i] =
          ⟨w.start + i * step_size (w.«end» - w.start) (steps (w.«end» - w.start) k g) g,
           w.start + (i + 1) * step_size (w.«end» - w.start) (steps (w.«end» - w.start) k g) g⟩) ∧
    (∀ i j, (hi : i < (split w k g).length) → (hj : j < (split w k g).length) → i ≠ j →
        ∀ t, memWindow t ((split w k g)[i]) → memWindow t ((split w k g)[j]) → False) ∧
    (∀ i, (h : i + 1 < (split w k g).length) →
        ((split w k g).get ⟨i, Nat.lt_of_succ_lt h⟩).«end» =
          ((split w k g).get ⟨i + 1, h⟩).start) ∧
    (∀ sw ∈ split w k g,
        (∃ a, sw.start = w.start + a * g) ∧ (∃ b, sw.«end» = w.start + b * g)) := by
  refine ⟨by decide, rfl, ?_, split_length w k g, split_getElem w k g, ?_, ?_, ?_⟩
  · exact dvd_mul_right g _
  · intro i j hi hj hne t hti htj
    rw [split_getElem w k g i hi] at hti
    rw [split_getElem w k g j hj] at htj
    rcases hne.lt_or_lt with hij | hji
    · exact split_disjoint_aux _ _ i j t hij hti.2 htj.1
    · exact split_disjoint_aux _ _ j i t hji htj.2 hti.1
  · intro i h
    have h1 := split_getElem w k g i (Nat.lt_of_succ_lt h)
    have h2 := split_getElem w k g (i + 1) h
    rw [List.get_eq_getElem, List.get_eq_getElem, h1, h2]
  · intro sw hsw
    obtain ⟨i, hi, hget⟩ := List.mem_iff_getElem.mp hsw
    obtain ⟨m, hm⟩ : g ∣ step_size (w.«end» - w.start) (steps (w.«end» - w.start) k g) g :=
      dvd_mul_right g _
    rw [split_getElem w k g i hi] at hget
    subst hget
    exact ⟨⟨i * m, by rw [hm]; ring⟩, ⟨(i + 1) * m, by rw [hm]; ring⟩⟩

/-- Witness: the concrete scenario of C1 — four windows of length 250000. -/
theorem split_spec_witness :
    split ⟨0, 1000000⟩ 4 10000 =
      [⟨0, 250000⟩, ⟨250000, 500000⟩, ⟨500000, 750000⟩, ⟨750000, 1000000⟩] :=
  (split_spec ⟨0, 1000000⟩ 4 10000 (by decide) (by decide) (by decide)).1

/-- The `while` condition of `_get_datapoints_helper` line 277:
`(not datapoints or len(datapoints[-1]) == limit) and params["end"] > params["start"]`. -/
def loopCond (limit «end» cursor : Nat) (datapoints : List (List Datapoint)) : Bool :=
  (datapoints.isEmpty || (datapoints.getLastD []).length == limit) && decide (cursor < «end»)

/-- `latest_timestamp` of a page: `page[-1]["timestamp"]` (line 290). -/
def lastTs (p : List Datapoint) : Nat :=
  (p.getLastD ⟨0, 0⟩).timestamp

/-- Modelled from the spec: `_utils.granularity_to_ms` is not under `src/`; the
cursor advance of line 291 is the granularity converted to milliseconds when a
granularity is given, else 1 (spec section 4.2 step 6). We take the converted
millisecond value as an `Option Nat`. -/
def cursorStep (granularity_ms : Option Nat) : Nat :=
  match granularity_ms with
  | some gms => gms
  | none => 1

/-- The paging loop of `_get_datapoints_helper` (datapoints.py lines 276-291);
the HTTP fetch plus decoding is an oracle from the current `params["start"]` to
the returned page, and `params["end"]`, the page `limit` and the cursor `step`
are fixed over the run. `fuel` bounds the number of fetch calls; `none` means
the loop was not finished after `fuel` fetches. The accumulator is the
`datapoints` list of pages. -/
def paginateLoop (fetch : Nat → List Datapoint) («end» limit step : Nat) :
    Nat → Nat → List (List Datapoint) → Option (List (List Datapoint))
  | 0, cursor, acc => if loopCond limit «end» cursor acc then none else some acc
  | fuel + 1, cursor, acc =>
    if loopCond limit «end» cursor acc then
      let res := fetch cursor
      if res.isEmpty then some acc
      else paginateLoop fetch «end» limit step fuel (lastTs res + step) (acc ++ [res])
    else some acc

/-- Lines 292-294: the pages of a finished run, concatenated. -/
def paginate (fetch : Nat → List Datapoint) («end» limit step fuel start : Nat) :
    Option (List Datapoint) :=
  (paginateLoop fetch «end» limit step fuel start []).map List.flatten

/-- The last-with-default element of a nonempty list is a member. -/
theorem getLastD_mem {α : Type} (l : List α) (d : α) (h : l ≠ []) : l.getLastD d ∈ l := by
  induction l with
  | nil => exact absurd rfl h
  | cons a t ih =>
    cases t with
    | nil => simp [List.getLastD]
    | cons b t' =>
      have he : (a :: b :: t').getLastD d = (b :: t').getLastD d := by
        simp [List.getLastD]
      rw [he]
      exact List.mem_cons_of_mem a (ih (by simp))

/-- Ceiling division bound: `D ≤ ⌈D / step⌉ * step`. -/
theorem ceil_div_mul_le (D step : Nat) (hstep : 1 ≤ step) (hD : 1 ≤ D) :
    D ≤ ((D + step - 1) / step) * step := by
  have h1 : D + step - 1 = (D - 1) + step := by omega
  rw [h1, Nat.add_div_right _ hstep]
  have h2 : D - 1 < step * ((D - 1) / step + 1) := Nat.lt_mul_div_succ _ hstep
  calc D = (D - 1) + 1 := by omega
    _ ≤ step * ((D - 1) / step + 1) := h2
    _ = ((D - 1) / step + 1) * step := Nat.mul_comm _ _

/-- If the remaining fuel covers the remaining window at one step per fetch,
the paging loop finishes. -/
theorem paginateLoop_isSome_of_fuel
    (fetch : Nat → List Datapoint) («end» limit step : Nat)
    (hfetch : ∀ c, c < «end» → fetch c ≠ [] ∧ ∀ d ∈ fetch c, c ≤ d.timestamp) :
    ∀ fuel cursor acc, «end» ≤ cursor + fuel * step →
      (paginateLoop fetch «end» limit step fuel cursor acc).isSome = true := by
  intro fuel
  induction fuel with
  | zero =>
    intro cursor acc h
    have hc : ¬ cursor < «end» := by omega
    simp [paginateLoop, loopCond, hc]
  | succ f ih =>
    intro cursor acc h
    cases hcond : loopCond limit «end» cursor acc with
    | false => simp [paginateLoop, hcond]
    | true =>
      have hce : cursor < «end» := by
        have := hcond
        unfold loopCond at this
        simp only [Bool.and_eq_true, decide_eq_true_eq] at this
        exact this.2
      obtain ⟨hne, hts⟩ := hfetch cursor hce
      have hres : (fetch cursor).isEmpty = false := by
        simpa [List.isEmpty_iff] using hne
      have hlast : cursor ≤ lastTs (fetch cursor) :=
        hts _ (getLastD_mem _ _ hne)
      have hsm : (f + 1) * step = f * step + step := Nat.succ_mul f step
      have hbound : «end» ≤ (lastTs (fetch cursor) + step) + f * step := by
        calc «end» ≤ cursor + (f + 1) * step := h
          _ = cursor + step + f * step := by rw [hsm]; ring
          _ ≤ lastTs (fetch cursor) + step + f * step :=
              Nat.add_le_add_right (Nat.add_le_add_right hlast step) (f * step)
      simp only [paginateLoop, hcond, if_true, hres, Bool.false_eq_true, if_false]
      exact ih _ _ hbound

/-- C2 (amended): assuming every fetched page in the window is non-empty with
timestamps at or after the cursor and inside the window, the cursor strictly
increases after every page, and the paging loop terminates within
`⌈(end - start)/step⌉` fetch calls (the claim's bound `(end - start)/step`
read as floor division fails, see the counterexample). -/
theorem paginator_monotonic_progress
    (fetch : Nat → List Datapoint) (start «end» limit : Nat) (granularity_ms : Option Nat)
    (hse : start < «end»)
    (hg : ∀ gms, granularity_ms = some gms → 1 ≤ gms)
    (hfetch : ∀ c, c < «end» →
        fetch c ≠ [] ∧ ∀ d ∈ fetch c, c ≤ d.timestamp ∧ d.timestamp < «end») :
    (∀ c, c < «end» → c < lastTs (fetch c) + cursorStep granularity_ms) ∧
    (paginateLoop fetch «end» limit (cursorStep granularity_ms)
        ((«end» - start + cursorStep granularity_ms - 1) / cursorStep granularity_ms)
        start []).isSome = true := by
  have hstep : 1 ≤ cursorStep granularity_ms := by
    cases granularity_ms with
    | none => exact Nat.le_refl 1
    | some gms => exact hg gms rfl
  constructor
  · intro c hc
    obtain ⟨hne, hts⟩ := hfetch c hc
    have hlast : c ≤ lastTs (fetch c) := (hts _ (getLastD_mem _ _ hne)).1
    omega
  · apply paginateLoop_isSome_of_fuel fetch «end» limit (cursorStep granularity_ms)
      (fun c hc => ⟨(hfetch c hc).1, fun d hd => ((hfetch c hc).2 d hd).1⟩)
    have h := ceil_div_mul_le («end» - start) (cursorStep granularity_ms) hstep (by omega)
    calc «end» = start + («end» - start) := by omega
      _ ≤ start + ((«end» - start + cursorStep granularity_ms - 1) / cursorStep granularity_ms)
            * cursorStep granularity_ms := Nat.add_le_add_left h start

/-- Witness for C2: the window [0,3) with step 2 and page limit 1, on an oracle
returning exactly the point at the cursor, finishes within ⌈3/2⌉ = 2 fetches. -/
theorem paginator_monotonic_progress_witness :
    (paginateLoop (fun c => [⟨c, 0⟩]) 3 1 (cursorStep (some 2))
        ((3 - 0 + cursorStep (some 2) - 1) / cursorStep (some 2)) 0 []).isSome = true :=
  (paginator_monotonic_progress (fun c => [⟨c, 0⟩]) 0 3 1 (some 2) (by decide)
    (by intro gms h; cases h; decide)
    (by decide)).2

/-- C2 counterexample: on the window [0,3) with step 2 and page limit 1, an
oracle satisfying all of the claim's assumptions (non-empty pages, strictly
ascending timestamps lying in [cursor, end)) makes the loop take 2 fetch calls,
exceeding the claimed bound (3-0)/2 = 1. -/
theorem paginator_floor_bound_cex :
    (∀ c, c < 3 → (fun c => [(⟨c, 0⟩ : Datapoint)]) c ≠ [] ∧
        List.Pairwise (fun a b : Datapoint => a.timestamp < b.timestamp)
          ((fun c => [(⟨c, 0⟩ : Datapoint)]) c) ∧
        ∀ d ∈ (fun c => [(⟨c, 0⟩ : Datapoint)]) c, c ≤ d.timestamp ∧ d.timestamp < 3) ∧
    paginateLoop (fun c => [⟨c, 0⟩]) 3 1 2 ((3 - 0) / 2) 0 [] = none ∧
    (paginateLoop (fun c => [⟨c, 0⟩]) 3 1 2 2 0 []).isSome = true := by
  refine ⟨by decide, by decide, by decide⟩

/-- No page repeats the last timestamp of the page before it. -/
def noBoundaryDup : List (List Datapoint) → Prop
  | [] => True
  | [_] => True
  | p :: q :: rest => (∀ d ∈ q, d.timestamp ≠ lastTs p) ∧ noBoundaryDup (q :: rest)

instance noBoundaryDupDec : (ps : List (List Datapoint)) → Decidable (noBoundaryDup ps)
  | [] => .isTrue trivial
  | [_] => .isTrue trivial
  | p :: q :: rest =>
    have : Decidable (noBoundaryDup (q :: rest)) := noBoundaryDupDec (q :: rest)
    inferInstanceAs (Decidable (_ ∧ _))

/-- Appending one page whose timestamps avoid the last timestamp of the final
accumulated page preserves `noBoundaryDup`. -/
theorem noBoundaryDup_append_singleton :
    ∀ (acc : List (List Datapoint)) (res : List Datapoint),
      noBoundaryDup acc →
      (∀ L, acc.getLast? = some L → ∀ d ∈ res, d.timestamp ≠ lastTs L) →
      noBoundaryDup (acc ++ [res])
  | [], _, _, _ => trivial
  | [p], res, _, h2 => ⟨h2 p rfl, trivial⟩
  | p :: q :: rest, res, h1, h2 => by
    refine ⟨h1.1, ?_⟩
    exact noBoundaryDup_append_singleton (q :: rest) res h1.2
      (fun L hL => h2 L (by rw [List.getLast?_cons_cons]; exact hL))

/-- Run invariant: a finished paging run, started from an accumulator already
satisfying `noBoundaryDup` whose final page lies strictly before the cursor,
ends with `noBoundaryDup`, provided fetched points are never before the
requested start and the step is positive. -/
theorem paginateLoop_noBoundaryDup
    (fetch : Nat → List Datapoint) («end» limit step : Nat)
    (hstep : 1 ≤ step)
    (hfetch : ∀ c, ∀ d ∈ fetch c, c ≤ d.timestamp) :
    ∀ fuel cursor acc ps,
      noBoundaryDup acc →
      (∀ L, acc.getLast? = some L → lastTs L < cursor) →
      paginateLoop fetch «end» limit step fuel cursor acc = some ps →
      noBoundaryDup ps := by
  intro fuel
  induction fuel with
  | zero =>
    intro cursor acc ps h1 _h2 hrun
    unfold paginateLoop at hrun
    cases hc : loopCond limit «end» cursor acc with
    | true => rw [if_pos hc] at hrun; exact absurd hrun (by simp)
    | false =>
      rw [if_neg (by simp [hc])] at hrun
      cases hrun
      exact h1
  | succ f ih =>
    intro cursor acc ps h1 h2 hrun
    unfold paginateLoop at hrun
    cases hc : loopCond limit «end» cursor acc with
    | false =>
      rw [if_neg (by simp [hc])] at hrun
      cases hrun
      exact h1
    | true =>
      rw [if_pos hc] at hrun
      cases hres : (fetch cursor).isEmpty with
      | true =>
        simp only [hres, if_true] at hrun
        cases hrun
        exact h1
      | false =>
        simp only [hres, Bool.false_eq_true, if_false] at hrun
        have hne : fetch cursor ≠ [] := by simpa [List.isEmpty_iff] using hres
        refine ih (lastTs (fetch cursor) + step) (acc ++ [fetch cursor]) ps ?_ ?_ hrun
        · refine noBoundaryDup_append_singleton acc (fetch cursor) h1 ?_
          intro L hL d hd
          have ha : lastTs L < cursor := h2 L hL
          have hb : cursor ≤ d.timestamp := hfetch cursor d hd
          omega
        · intro L hL
          rw [List.getLast?_concat] at hL
          cases hL
          omega

/-- C4: after each non-short page the next fetch starts at the last returned
timestamp plus the step (granularity in ms, or 1 for raw data), so — assuming
the fetch collaborator only returns points at or after the requested start —
a finished run never repeats the last timestamp of the previous page. -/
theorem paginate_no_duplicate_boundary
    (fetch : Nat → List Datapoint) (start «end» limit : Nat) (granularity_ms : Option Nat)
    (hg : ∀ gms, granularity_ms = some gms → 1 ≤ gms)
    (hfetch : ∀ c, ∀ d ∈ fetch c, c ≤ d.timestamp) :
    ∀ fuel ps,
      paginateLoop fetch «end» limit (cursorStep granularity_ms) fuel start [] = some ps →
      noBoundaryDup ps := by
  have hstep : 1 ≤ cursorStep granularity_ms := by
    cases granularity_ms with
    | none => exact Nat.le_refl 1
    | some gms => exact hg gms rfl
  intro fuel ps h
  exact paginateLoop_noBoundaryDup fetch «end» limit (cursorStep granularity_ms) hstep hfetch
    fuel start [] ps trivial (by intro L hL; simp at hL) h

/-- Witness for C4: a concrete five-page run on the window [0,5), step 1,
page limit 1, yields pages with no duplicated boundary timestamps. -/
theorem paginate_no_duplicate_boundary_witness :
    noBoundaryDup [[⟨0, 0⟩], [⟨1, 0⟩], [⟨2, 0⟩], [⟨3, 0⟩], [⟨4, 0⟩]] :=
  paginate_no_duplicate_boundary (fun c => [⟨c, 0⟩]) 0 5 1 none
    (by intro gms h; cases h)
    (by
      intro c d hd
      rcases List.mem_singleton.mp hd with rfl
      exact Nat.le_refl c)
    9 _ (by decide)

/-- `get_datapoints` lines 204-219: one `_get_datapoints_helper` call per
sub-window; `Pool.map` yields results in the order of `args` (dispatch order,
not completion order), and they are concatenated in that order. -/
def fetchAll (w : TimeWindow) (num_of_workers granularity_ms : Nat)
    (worker : TimeWindow → List Datapoint) : List Datapoint :=
  ((split w num_of_workers granularity_ms).map worker).flatten

/-- C3: with at least one worker, assuming each sub-window's paginator result
has strictly ascending timestamps lying inside its own sub-window, the
coordinator's dispatch-order concatenation has strictly ascending timestamps
without any re-sorting; and there is at least one sub-window. -/
theorem fetchAll_ordered (w : TimeWindow) (k g : Nat)
    (worker : TimeWindow → List Datapoint)
    (hk : 1 ≤ k)
    (hsorted : ∀ sw ∈ split w k g,
        List.Pairwise (fun a b : Datapoint => a.timestamp < b.timestamp) (worker sw))
    (hin : ∀ sw ∈ split w k g, ∀ d ∈ worker sw, memWindow d.timestamp sw) :
    1 ≤ (split w k g).length ∧
    List.Pairwise (· < ·) ((fetchAll w k g worker).map Datapoint.timestamp) := by
  constructor
  · rw [split_length]
    exact Nat.le_min.mpr ⟨hk, Nat.le_max_left 1 _⟩
  · unfold fetchAll
    rw [List.map_flatten, List.map_map, List.pairwise_flatten]
    constructor
    · intro l hl
      obtain ⟨sw, hsw, rfl⟩ := List.mem_map.mp hl
      simpa [List.pairwise_map] using hsorted sw hsw
    · rw [List.pairwise_map, List.pairwise_iff_getElem]
      intro i j hi hj hij x hx y hy
      obtain ⟨dx, hdx, rfl⟩ := List.mem_map.mp hx
      obtain ⟨dy, hdy, rfl⟩ := List.mem_map.mp hy
      have hwi := split_getElem w k g i hi
      have hwj := split_getElem w k g j hj
      have hxw := hin ((split w k g)[i]) (List.getElem_mem hi) dx hdx
      have hyw := hin ((split w k g)[j]) (List.getElem_mem hj) dy hdy
      rw [hwi] at hxw
      rw [hwj] at hyw
      have hmul : (i + 1) * step_size (w.«end» - w.start) (steps (w.«end» - w.start) k g) g
          ≤ j * step_size (w.«end» - w.start) (steps (w.«end» - w.start) k g) g :=
        Nat.mul_le_mul_right _ hij
      have h1 : dx.timestamp <
          w.start + (i + 1) * step_size (w.«end» - w.start) (steps (w.«end» - w.start) k g) g :=
        hxw.2
      have h2 : w.start + j * step_size (w.«end» - w.start) (steps (w.«end» - w.start) k g) g
          ≤ dy.timestamp := hyw.1
      exact Nat.lt_of_lt_of_le (Nat.lt_of_lt_of_le h1 (Nat.add_le_add_left hmul w.start)) h2

/-- Witness for C3: two sub-windows of [0,4), each worker returning two ordered
in-window points, concatenate to the ascending sequence 0,1,2,3. -/
theorem fetchAll_ordered_witness :
    List.Pairwise (· < ·)
      ((fetchAll ⟨0, 4⟩ 2 1 (fun sw => [⟨sw.start, 0⟩, ⟨sw.start + 1, 0⟩])).map
        Datapoint.timestamp) :=
  (fetchAll_ordered ⟨0, 4⟩ 2 1 (fun sw => [⟨sw.start, 0⟩, ⟨sw.start + 1, 0⟩])
    (by decide) (by decide) (by decide)).2

/-- The paging loop of `_get_datapoints_helper` with a fallible fetch: a raised
exception in `self._get` (or in decoding) aborts the loop and propagates — no
accumulated datapoints are returned. The outer `Option` is only the fuel bound. -/
def paginateLoopE (fetch : Nat → Except String (List Datapoint)) («end» limit step : Nat) :
    Nat → Nat → List (List Datapoint) → Option (Except String (List (List Datapoint)))
  | 0, cursor, acc => if loopCond limit «end» cursor acc then none else some (.ok acc)
  | fuel + 1, cursor, acc =>
    if loopCond limit «end» cursor acc then
      match fetch cursor with
      | .error err => some (.error err)
      | .ok res =>
        if res.isEmpty then some (.ok acc)
        else paginateLoopE fetch «end» limit step fuel (lastTs res + step) (acc ++ [res])
    else some (.ok acc)

/-- Collect the per-sub-window results in dispatch order; iterating the pool's
result generator re-raises the first exception encountered. -/
def mapWorkers (worker : TimeWindow → Except String (List Datapoint)) :
    List TimeWindow → Except String (List (List Datapoint))
  | [] => .ok []
  | sw :: rest =>
    match worker sw with
    | .error err => .error err
    | .ok r =>
      match mapWorkers worker rest with
      | .error err => .error err
      | .ok rs => .ok (r :: rs)

/-- `get_datapoints` lines 204-219 with fallible workers: the whole call returns
either every sub-window's pages joined in dispatch order, or the first error —
never a partial concatenation. -/
def fetchAllE (w : TimeWindow) (num_of_workers granularity_ms : Nat)
    (worker : TimeWindow → Except String (List Datapoint)) : Except String (List Datapoint) :=
  match mapWorkers worker (split w num_of_workers granularity_ms) with
  | .ok results => .ok results.flatten
  | .error err => .error err

/-- Joining the workers fails whenever any worker fails. -/
theorem mapWorkers_error_of_mem (worker : TimeWindow → Except String (List Datapoint)) :
    ∀ (l : List TimeWindow), (∃ sw ∈ l, ∃ err, worker sw = .error err) →
      ∃ err, mapWorkers worker l = Except.error err := by
  intro l
  induction l with
  | nil => rintro ⟨x, hx, _⟩; exact absurd hx (List.not_mem_nil x)
  | cons a t ih =>
    rintro ⟨x, hx, err, hfx⟩
    cases hfa : worker a with
    | error e => exact ⟨e, by simp [mapWorkers, hfa]⟩
    | ok ra =>
      rcases List.mem_cons.mp hx with rfl | hxt
      · rw [hfa] at hfx; exact absurd hfx (by simp)
      · obtain ⟨e, he⟩ := ih ⟨x, hxt, err, hfx⟩
        exact ⟨e, by simp [mapWorkers, hfa, he]⟩

/-- C7: a failure anywhere fails the whole request with no partial results.
First part: if any sub-window's worker fails, `fetchAllE` returns an error (and
by its type the caller receives no datapoints at all).  Second part: in the
serial paginator, a fetch error on the second page aborts the whole run,
discarding the already-fetched first page. -/
theorem fetch_failure_propagates
    (w : TimeWindow) (k g : Nat) (worker : TimeWindow → Except String (List Datapoint))
    (fetch : Nat → Except String (List Datapoint))
    (start «end» limit step fuel : Nat) (p : List Datapoint) (err errW : String)
    (hworker : ∃ sw ∈ split w k g, worker sw = .error errW)
    (hs : start < «end»)
    (hp1 : fetch start = .ok p)
    (hp2 : p ≠ [])
    (hp3 : p.length = limit)
    (hp4 : lastTs p + step < «end»)
    (hp5 : fetch (lastTs p + step) = .error err) :
    (∃ e, fetchAllE w k g worker = .error e) ∧
    paginateLoopE fetch «end» limit step (fuel + 2) start [] = some (.error err) := by
  constructor
  · obtain ⟨e, he⟩ := mapWorkers_error_of_mem worker (split w k g)
      ⟨hworker.choose, hworker.choose_spec.1, errW, hworker.choose_spec.2⟩
    exact ⟨e, by simp [fetchAllE, he]⟩
  · have hc1 : loopCond limit «end» start [] = true := by
      simp [loopCond, hs]
    have hpne : p.isEmpty = false := by simpa [List.isEmpty_iff] using hp2
    have hc2 : loopCond limit «end» (lastTs p + step) [p] = true := by
      simp [loopCond, hp3, hp4, List.getLastD]
    unfold paginateLoopE
    rw [if_pos hc1, hp1]
    simp only [hpne, Bool.false_eq_true, if_false]
    unfold paginateLoopE
    rw [List.nil_append, if_pos hc2, hp5]

/-- Witness for C7 at a concrete window, worker and fetch oracle. -/
theorem fetch_failure_propagates_witness :
    (∃ e, fetchAllE ⟨0, 4⟩ 2 1 (fun _ => .error "boom") = .error e) ∧
    paginateLoopE (fun c => if c = 0 then .ok [⟨0, 0⟩] else .error "boom") 4 1 1 (0 + 2) 0 []
      = some (.error "boom") :=
  fetch_failure_propagates ⟨0, 4⟩ 2 1 (fun _ => .error "boom")
    (fun c => if c = 0 then .ok [⟨0, 0⟩] else .error "boom")
    0 4 1 1 0 [⟨0, 0⟩] "boom" "boom"
    ⟨⟨0, 2⟩, by decide, rfl⟩
    (by decide) (by rfl) (by decide) (by decide) (by decide) (by rfl)

/-- C8: when include-outside-points is requested, the worker count used for
splitting is forced to 1, so the split is a single sub-window — the whole fetch
is one serial paginator regardless of the configured or requested worker count. -/
theorem include_outside_points_forces_serial (workers : Nat) (w : TimeWindow) (g : Nat) :
    effective_num_of_workers workers true = 1 ∧
    steps (w.«end» - w.start) (effective_num_of_workers workers true) g = 1 ∧
    split w (effective_num_of_workers workers true) g =
      [⟨w.start,
        w.start + step_size (w.«end» - w.start)
          (steps (w.«end» - w.start) (effective_num_of_workers workers true) g) g⟩] := by
  have h1 : steps (w.«end» - w.start) (effective_num_of_workers workers true) g = 1 := by
    unfold effective_num_of_workers steps
    simp [Nat.min_eq_left (Nat.le_max_left 1 _)]
  refine ⟨rfl, h1, ?_⟩
  apply List.ext_getElem
  · rw [split_length, h1]; rfl
  · intro i hi1 hi2
    have hi0 : i = 0 := by
      rw [split_length, h1] at hi1; omega
    subst hi0
    rw [split_getElem w _ g 0 hi1]
    simp [h1]

/-- Locating a timestamp of `[s, s + n*sz)` in the bucket family
`[s + q*sz, s + (q+1)*sz)`. -/
theorem union_interval_aux (s sz n t : Nat) (hszpos : 0 < sz)
    (h1 : s ≤ t) (h2 : t < s + n * sz) :
    (t - s) / sz < n ∧ s + (t - s) / sz * sz ≤ t ∧ t < s + (t - s) / sz * sz + sz := by
  have hdm : (t - s) / sz * sz ≤ t - s := Nat.div_mul_le_self _ _
  have hup : t - s < sz * ((t - s) / sz + 1) := Nat.lt_mul_div_succ _ hszpos
  have hmul : sz * ((t - s) / sz + 1) = (t - s) / sz * sz + sz := by ring
  have hqn : (t - s) / sz < n := by
    by_contra hcon
    push_neg at hcon
    have : n * sz ≤ (t - s) / sz * sz := Nat.mul_le_mul_right _ hcon
    omega
  exact ⟨hqn, by omega, by omega⟩

/-- C9: the union of the sub-windows actually dispatched by `get_datapoints` is
exactly `[start, start + steps*stepSize)`; the caller never extends the last
sub-window to the original `end`; with the round-down step size the fetched
region never overshoots `end` (so a remainder `[start + steps*stepSize, end)`
is simply never requested), and if it did overshoot, timestamps at or past
`end` would be requested. -/
theorem split_union_exact (w : TimeWindow) (k g : Nat)
    (hse : w.start < w.«end») (hk : 1 ≤ k) (hg : 1 ≤ g) :
    (∀ t, (∃ sw ∈ split w k g, memWindow t sw) ↔
        (w.start ≤ t ∧ t < w.start +
          steps (w.«end» - w.start) k g *
            step_size (w.«end» - w.start) (steps (w.«end» - w.start) k g) g)) ∧
    steps (w.«end» - w.start) k g *
        step_size (w.«end» - w.start) (steps (w.«end» - w.start) k g) g
      ≤ w.«end» - w.start ∧
    ((w.«end» - w.start <
        steps (w.«end» - w.start) k g *
          step_size (w.«end» - w.start) (steps (w.«end» - w.start) k g) g) →
      ∃ t, w.«end» ≤ t ∧ ∃ sw ∈ split w k g, memWindow t sw) := by
  have hle : steps (w.«end» - w.start) k g *
      step_size (w.«end» - w.start) (steps (w.«end» - w.start) k g) g
        ≤ w.«end» - w.start := by
    unfold step_size round_to_nearest
    calc steps (w.«end» - w.start) k g *
          (g * ((w.«end» - w.start) / steps (w.«end» - w.start) k g / g))
        ≤ steps (w.«end» - w.start) k g *
          ((w.«end» - w.start) / steps (w.«end» - w.start) k g) := by
          apply Nat.mul_le_mul_left
          calc g * ((w.«end» - w.start) / steps (w.«end» - w.start) k g / g)
              ≤ (w.«end» - w.start) / steps (w.«end» - w.start) k g / g * g +
                  (w.«end» - w.start) / steps (w.«end» - w.start) k g % g := by
                rw [Nat.mul_comm]; exact Nat.le_add_right _ _
            _ = (w.«end» - w.start) / steps (w.«end» - w.start) k g := Nat.div_add_mod' _ _
      _ ≤ w.«end» - w.start := Nat.mul_div_le _ _
  refine ⟨?_, hle, ?_⟩
  · intro t
    constructor
    · rintro ⟨sw, hsw, hmem⟩
      obtain ⟨i, hi, rfl⟩ := List.mem_iff_getElem.mp hsw
      rw [split_getElem w k g i hi] at hmem
      obtain ⟨hm1, hm2⟩ := hmem
      have hilen : i < steps (w.«end» - w.start) k g := by
        rw [split_length] at hi; exact hi
      constructor
      · exact Nat.le_trans (Nat.le_add_right _ _) hm1
      · have : (i + 1) * step_size (w.«end» - w.start) (steps (w.«end» - w.start) k g) g
            ≤ steps (w.«end» - w.start) k g *
              step_size (w.«end» - w.start) (steps (w.«end» - w.start) k g) g :=
          Nat.mul_le_mul_right _ hilen
        exact Nat.lt_of_lt_of_le hm2 (Nat.add_le_add_left this w.start)
    · rintro ⟨h1, h2⟩
      by_cases hsz : step_size (w.«end» - w.start) (steps (w.«end» - w.start) k g) g = 0
      · rw [hsz, Nat.mul_zero, Nat.add_zero] at h2
        exact absurd (Nat.lt_of_le_of_lt h1 h2) (Nat.lt_irrefl _)
      · obtain ⟨hq1, hq2, hq3⟩ := union_interval_aux w.start
          (step_size (w.«end» - w.start) (steps (w.«end» - w.start) k g) g)
          (steps (w.«end» - w.start) k g) t (Nat.pos_of_ne_zero hsz) h1 h2
        have hqlen : (t - w.start) /
            step_size (w.«end» - w.start) (steps (w.«end» - w.start) k g) g
              < (split w k g).length := by
          rw [split_length]; exact hq1
        refine ⟨(split w k g)[(t - w.start) /
            step_size (w.«end» - w.start) (steps (w.«end» - w.start) k g) g],
          List.getElem_mem hqlen, ?_⟩
        rw [split_getElem w k g _ hqlen]
        dsimp only [memWindow]
        have hs : ((t - w.start) /
              step_size (w.«end» - w.start) (steps (w.«end» - w.start) k g) g + 1)
            * step_size (w.«end» - w.start) (steps (w.«end» - w.start) k g) g
            = (t - w.start) /
              step_size (w.«end» - w.start) (steps (w.«end» - w.start) k g) g
            * step_size (w.«end» - w.start) (steps (w.«end» - w.start) k g) g
            + step_size (w.«end» - w.start) (steps (w.«end» - w.start) k g) g := by
          ring
        exact ⟨by omega, by omega⟩
  · intro hover
    exact absurd (Nat.lt_of_le_of_lt hle hover) (Nat.lt_irrefl _)

/-- Witness for C9: window [0,7) with 2 workers and granularity 2 — the union
of dispatched windows is exactly [0,4); [4,7) is never requested. -/
theorem split_union_exact_witness :
    steps (7 - 0) 2 2 * step_size (7 - 0) (steps (7 - 0) 2 2) 2 ≤ 7 - 0 :=
  (split_union_exact ⟨0, 7⟩ 2 2 (by decide) (by decide) (by decide)).2.1

/-- The fields of `DatapointsQuery` used by `get_multi_time_series_datapoints`:
`aggregates` is the comma-joined aggregate string or `None`; `granularity` is
modelled by its converted millisecond value (`_utils.granularity_to_ms` is not
under `src/`), `none` when not given; `start` is the per-query cursor the loop
overwrites; `end` the query's own optional end; `limit` the per-query page
limit the loop assigns before paging. -/
structure DatapointsQuery where
  name : String
  aggregates : Option String
  granularity : Option Nat
  start : Nat
  «end» : Option Nat
  limit : Nat
deriving DecidableEq, Repr

/-- The classification used when COUNTING queries (lines 529-533):
`(dpq.aggregates is None and aggregates is None) or dpq.aggregates == ""`. -/
def countsAsRaw (call_aggregates : Option String) (dpq : DatapointsQuery) : Bool :=
  (dpq.aggregates == none && call_aggregates == none) || dpq.aggregates == some ""

/-- The classification used when ASSIGNING limits (line 537):
`dpq.aggregates is None and aggregates is None`. -/
def budgetsAsRaw (call_aggregates : Option String) (dpq : DatapointsQuery) : Bool :=
  dpq.aggregates == none && call_aggregates == none

/-- `num_of_dpqs_raw` (lines 527-533). -/
def num_of_dpqs_raw (call_aggregates : Option String) (qs : List DatapointsQuery) : Nat :=
  (qs.filter (countsAsRaw call_aggregates)).length

/-- `num_of_dpqs_with_agg` (lines 527-533). -/
def num_of_dpqs_with_agg (call_aggregates : Option String) (qs : List DatapointsQuery) : Nat :=
  (qs.filter (fun dpq => ! countsAsRaw call_aggregates dpq)).length

/-- Lines 536-541: before the loop, every query's `limit` field is overwritten
with its class's global limit divided by that class's query count. -/
def assignLimits (LIMIT LIMIT_AGG : Nat) (call_aggregates : Option String)
    (qs : List DatapointsQuery) : List DatapointsQuery :=
  qs.map (fun dpq =>
    { dpq with limit :=
        if budgetsAsRaw call_aggregates dpq then LIMIT / num_of_dpqs_raw call_aggregates qs
        else LIMIT_AGG / num_of_dpqs_with_agg call_aggregates qs })

/-- Per-query cursor update of the multi-series loop (lines 558-567): a full
page advances past the last timestamp by the query's granularity (falling back
to the call-level granularity, else 1 ms); a short page jumps to `end - 1`,
overwritten with the query's own `end - 1` when that end is truthy. -/
def nextStartMulti (call_granularity : Option Nat) («end» : Nat)
    (dpq : DatapointsQuery) (page : List Datapoint) : Nat :=
  if page.length = dpq.limit then
    let ts_granularity := if dpq.granularity = none then call_granularity else dpq.granularity
    lastTs page + cursorStep ts_granularity
  else
    match dpq.«end» with
    | some qe => if qe ≠ 0 then qe - 1 else «end» - 1
    | none => «end» - 1

/-- One iteration of the while-loop of `get_multi_time_series_datapoints`
(lines 552-567): the server returns one page per query; each query's `start`
is overwritten in place, and `has_incomplete_requests` is set when any page is
full. -/
def multiRound (call_granularity : Option Nat) («end» : Nat)
    (qs : List DatapointsQuery) (res : List (List Datapoint)) :
    List DatapointsQuery × Bool :=
  (List.zipWith
      (fun dpq dpr => { dpq with start := nextStartMulti call_granularity «end» dpq dpr })
      qs res,
   (List.zipWith (fun dpq dpr => dpr.length == dpq.limit) qs res).any id)

/-- The while-loop of `get_multi_time_series_datapoints` (lines 550-567) with
fuel. The request body's `items` holds references to the live query dicts, so
each round's request payload is the whole current query list; the trace of
payloads is returned together with the final query states. -/
def multiLoop (server : List DatapointsQuery → List (List Datapoint))
    (call_granularity : Option Nat) («end» : Nat) :
    Nat → List DatapointsQuery →
      Option (List (List DatapointsQuery) × List DatapointsQuery)
  | 0, _ => none
  | fuel + 1, qs =>
    if (multiRound call_granularity «end» qs (server qs)).2 then
      match multiLoop server call_granularity «end» fuel
          (multiRound call_granularity «end» qs (server qs)).1 with
      | none => none
      | some (payloads, final) => some (qs :: payloads, final)
    else some ([qs], (multiRound call_granularity «end» qs (server qs)).1)

/-- The short-page cursor rule exactly as claim C5 words it, for comparison
with the code's `nextStartMulti`: final boundary `min(sharedWindow.end,
query.end) - 1` when the query declared its own end. -/
def claimedNextStartC5 (call_granularity : Option Nat) («end» : Nat)
    (dpq : DatapointsQuery) (page : List Datapoint) : Nat :=
  if page.length = dpq.limit then
    lastTs page +
      cursorStep (if dpq.granularity = none then call_granularity else dpq.granularity)
  else
    match dpq.«end» with
    | some qe => min «end» qe - 1
    | none => «end» - 1

/-- The cursor rule of the amended claim C5: a short page sends the cursor to
the query's own nonzero declared end minus 1 (regardless of the shared end),
else to the shared end minus 1; a full page advances past the last timestamp
by the query's effective granularity. -/
def amendedNextStartC5 (call_granularity : Option Nat) («end» : Nat)
    (dpq : DatapointsQuery) (page : List Datapoint) : Nat :=
  if page.length = dpq.limit then
    lastTs page +
      cursorStep (if dpq.granularity = none then call_granularity else dpq.granularity)
  else
    match dpq.«end» with
    | some qe => if qe = 0 then «end» - 1 else qe - 1
    | none => «end» - 1

/-- C5 counterexample: a short page for a query that declared its own end 200
under a shared end 100: the code jumps the cursor to 199 (`query.end - 1`),
not to `min(sharedWindow.end, query.end) - 1 = 99` as claimed. -/
theorem multi_cursor_min_cex :
    nextStartMulti none 100 ⟨"q", none, none, 0, some 200, 5⟩ [] = 199 ∧
    claimedNextStartC5 none 100 ⟨"q", none, none, 0, some 200, 5⟩ [] = 99 ∧
    (199 : Nat) ≠ 99 := by
  decide

/-- C5 (amended): in each round of the multi-series pager, a query whose page
is short does not mark the round incomplete and its cursor becomes its own
declared (nonzero) end minus 1, regardless of the shared end, else the shared
end minus 1; a query whose page is full marks the round incomplete and its
cursor advances past the last returned timestamp by its own granularity in ms
(falling back to the call-level granularity, else 1). -/
theorem multi_cursor_update (call_granularity : Option Nat) («end» : Nat)
    (qs : List DatapointsQuery) (res : List (List Datapoint))
    (hlen : qs.length = res.length) :
    (∀ i, (hi : i < qs.length) → (hir : i < res.length) →
        (him : i < (multiRound call_granularity «end» qs res).1.length) →
        ((multiRound call_granularity «end» qs res).1.get ⟨i, him⟩).start
          = amendedNextStartC5 call_granularity «end» (qs.get ⟨i, hi⟩) (res.get ⟨i, hir⟩)) ∧
    ((multiRound call_granularity «end» qs res).2 = true ↔
      ∃ i, ∃ (hi : i < qs.length), ∃ (hir : i < res.length),
        (res.get ⟨i, hir⟩).length = (qs.get ⟨i, hi⟩).limit) := by
  constructor
  · intro i hi hir him
    have hz : (multiRound call_granularity «end» qs res).1.get ⟨i, him⟩ =
        { qs.get ⟨i, hi⟩ with
            start := nextStartMulti call_granularity «end» (qs.get ⟨i, hi⟩) (res.get ⟨i, hir⟩) } := by
      simp [multiRound, List.get_eq_getElem, List.getElem_zipWith]
    rw [hz]
    show nextStartMulti call_granularity «end» (qs.get ⟨i, hi⟩) (res.get ⟨i, hir⟩)
      = amendedNextStartC5 call_granularity «end» (qs.get ⟨i, hi⟩) (res.get ⟨i, hir⟩)
    unfold nextStartMulti amendedNextStartC5
    by_cases hfull : (res.get ⟨i, hir⟩).length = (qs.get ⟨i, hi⟩).limit
    · simp [hfull]
    · simp only [hfull, if_false]
      cases hqe : (qs.get ⟨i, hi⟩).«end» with
      | none => rfl
      | some qe =>
        by_cases h0 : qe = 0
        · simp [h0]
        · simp [h0]
  · unfold multiRound
    rw [List.any_eq_true]
    constructor
    · rintro ⟨b, hb, hbtrue⟩
      obtain ⟨i, hilen, hget⟩ := List.mem_iff_getElem.mp hb
      rw [List.length_zipWith] at hilen
      have hi : i < qs.length := Nat.lt_of_lt_of_le hilen (Nat.min_le_left _ _)
      have hir : i < res.length := Nat.lt_of_lt_of_le hilen (Nat.min_le_right _ _)
      refine ⟨i, hi, hir, ?_⟩
      rw [List.getElem_zipWith] at hget
      rw [← hget] at hbtrue
      simpa [List.get_eq_getElem] using hbtrue
    · rintro ⟨i, hi, hir, heq⟩
      have hilen : i < (List.zipWith (fun dpq dpr => dpr.length == dpq.limit) qs res).length := by
        rw [List.length_zipWith]
        exact Nat.lt_min.mpr ⟨hi, hir⟩
      refine ⟨(List.zipWith (fun dpq dpr => dpr.length == dpq.limit) qs res)[i],
        List.getElem_mem hilen, ?_⟩
      rw [List.getElem_zipWith]
      simpa [List.get_eq_getElem] using heq

/-- Witness for C5: at a concrete short page the multi-round cursor equals the
amended rule's value. -/
theorem multi_cursor_update_witness :
    ((multiRound none 100 [⟨"q", none, none, 0, some 200, 5⟩] [[]]).1.get
        ⟨0, by decide⟩).start
      = amendedNextStartC5 none 100 ⟨"q", none, none, 0, some 200, 5⟩ [] :=
  (multi_cursor_update none 100 [⟨"q", none, none, 0, some 200, 5⟩] [[]] (by decide)).1
    0 (by decide) (by decide) (by decide)

/-- C6: the failing input of the limit-class mismatch — a query with
`aggregates == ""` (which the `DatapointsQuery` docstring defines as an explicit
request for raw data) is COUNTED in the raw class (line 530) but BUDGETED in
the aggregate class (line 537); with such a query as the only query, the
aggregate class divisor is 0, so the code computes `_LIMIT_AGG / 0` — a
`ZeroDivisionError` in Python — instead of the claimed raw budget `_LIMIT / 1`. -/
theorem limit_class_mismatch :
    countsAsRaw none ⟨"q", some "", none, 0, none, 0⟩ = true ∧
    budgetsAsRaw none ⟨"q", some "", none, 0, none, 0⟩ = false ∧
    num_of_dpqs_raw none [⟨"q", some "", none, 0, none, 0⟩] = 1 ∧
    num_of_dpqs_with_agg none [⟨"q", some "", none, 0, none, 0⟩] = 0 := by
  decide

/-- A round of `multiRound` keeps one entry per query. -/
theorem multiRound_length (call_granularity : Option Nat) («end» : Nat)
    (qs : List DatapointsQuery) (res : List (List Datapoint))
    (hlen : res.length = qs.length) :
    (multiRound call_granularity «end» qs res).1.length = qs.length := by
  simp [multiRound, List.length_zipWith, hlen]

/-- Every request payload of a `multiLoop` run carries one entry per original
query — terminated queries included. -/
theorem multiLoop_payload_lengths
    (server : List DatapointsQuery → List (List Datapoint))
    (call_granularity : Option Nat) («end» n : Nat)
    (hserver : ∀ qs, qs.length = n → (server qs).length = n) :
    ∀ fuel qs payloads final, qs.length = n →
      multiLoop server call_granularity «end» fuel qs = some (payloads, final) →
      (∀ payload ∈ payloads, payload.length = n) ∧ final.length = n := by
  intro fuel
  induction fuel with
  | zero =>
    intro qs payloads final _ hrun
    exact absurd hrun (by simp [multiLoop])
  | succ f ih =>
    intro qs payloads final hq hrun
    unfold multiLoop at hrun
    have hstate : (multiRound call_granularity «end» qs (server qs)).1.length = n := by
      rw [multiRound_length _ _ _ _ (by rw [hserver qs hq, hq]), hq]
    cases hflag : (multiRound call_granularity «end» qs (server qs)).2 with
    | false =>
      rw [if_neg (by simp [hflag])] at hrun
      injection hrun with hpair
      injection hpair with hp hf
      subst hp; subst hf
      exact ⟨by intro payload hp; rcases List.mem_singleton.mp hp with rfl; exact hq, hstate⟩
    | true =>
      rw [if_pos hflag] at hrun
      cases hrec : multiLoop server call_granularity «end» f
          (multiRound call_granularity «end» qs (server qs)).1 with
      | none => rw [hrec] at hrun; exact absurd hrun (by simp)
      | some pf =>
        rw [hrec] at hrun
        obtain ⟨payloads', final'⟩ := pf
        injection hrun with hpair
        injection hpair with hp hf
        subst hp; subst hf
        obtain ⟨hall, hfin⟩ := ih _ payloads' final' hstate hrec
        refine ⟨?_, hfin⟩
        intro payload hp
        rcases List.mem_cons.mp hp with rfl | hp'
        · exact hq
        · exact hall payload hp'

/-- The batched server oracle of the concrete C10 scenario: on the first
request (cursor 0) query 0 gets a short page and query 1 a full one; any later
request gets two empty pages. -/
def c10Server : List DatapointsQuery → List (List Datapoint)
  | [] => []
  | q :: _ => if q.start = 0 then [[⟨10, 0⟩], [⟨10, 0⟩, ⟨20, 0⟩]] else [[], []]

/-- C10: the multi-series pager works by mutating its query objects:
(1) `assignLimits` overwrites every query's `limit` field with the computed
per-class budget (the input limit value is discarded);
(2) since the request body holds references to the live query dicts, every
request payload contains one entry per query — including queries that already
terminated — for the whole run;
(3) concretely, with two queries where query 0 terminates in round 1 (short
page) while query 1 continues, the second request still carries query 0, with
its post-terminal cursor 99 (= shared end 100 - 1), and each query's `start`
has been overwritten after every round. -/
theorem multi_query_mutation
    (LIMIT LIMIT_AGG : Nat) (call_aggregates : Option String)
    (qs0 : List DatapointsQuery)
    (server : List DatapointsQuery → List (List Datapoint))
    (call_granularity : Option Nat) («end» n : Nat)
    (hserver : ∀ qs, qs.length = n → (server qs).length = n) :
    (∀ i, (hi : i < qs0.length) → (hi2 : i < (assignLimits LIMIT LIMIT_AGG call_aggregates qs0).length) →
        (assignLimits LIMIT LIMIT_AGG call_aggregates qs0).get ⟨i, hi2⟩ =
          { qs0.get ⟨i, hi⟩ with limit :=
              (if budgetsAsRaw call_aggregates (qs0.get ⟨i, hi⟩)
                then LIMIT / num_of_dpqs_raw call_aggregates qs0
                else LIMIT_AGG / num_of_dpqs_with_agg call_aggregates qs0) }) ∧
    (∀ fuel qs payloads final, qs.length = n →
        multiLoop server call_granularity «end» fuel qs = some (payloads, final) →
        ∀ payload ∈ payloads, payload.length = n) ∧
    multiLoop c10Server none 100 5
        [⟨"a", none, none, 0, none, 2⟩, ⟨"b", none, none, 0, none, 2⟩]
      = some ([[⟨"a", none, none, 0, none, 2⟩, ⟨"b", none, none, 0, none, 2⟩],
               [⟨"a", none, none, 99, none, 2⟩, ⟨"b", none, none, 21, none, 2⟩]],
              [⟨"a", none, none, 99, none, 2⟩, ⟨"b", none, none, 99, none, 2⟩]) := by
  refine ⟨?_, ?_, by decide⟩
  · intro i hi hi2
    simp [assignLimits, List.get_eq_getElem, List.getElem_map]
  · intro fuel qs payloads final hq hrun
    exact (multiLoop_payload_lengths server call_granularity «end» n hserver
      fuel qs payloads final hq hrun).1

/-- Witness for C10: the concrete two-query run — the second request payload
still contains the terminated query 0 with its post-terminal cursor 99. -/
theorem multi_query_mutation_witness :
    multiLoop c10Server none 100 5
        [⟨"a", none, none, 0, none, 2⟩, ⟨"b", none, none, 0, none, 2⟩]
      = some ([[⟨"a", none, none, 0, none, 2⟩, ⟨"b", none, none, 0, none, 2⟩],
               [⟨"a", none, none, 99, none, 2⟩, ⟨"b", none, none, 21, none, 2⟩]],
              [⟨"a", none, none, 99, none, 2⟩, ⟨"b", none, none, 99, none, 2⟩]) :=
  (multi_query_mutation 100000 10000 none [] c10Server none 100 2
    (by
      intro qs h
      cases qs with
      | nil => simp at h
      | cons q rest =>
        unfold c10Server
        by_cases hq : q.start = 0
        · simp [hq, h]
        · simp [hq, h])).2.2

end CogniteDatapoints
